import Mathlib

/-!
Verification of the gitstatus status-snapshot pipeline.

Shallow embedding of the Go sources:
  - status.go (src/unnamed/part_005): `Status`, `Porcelain`, `newStatus`,
    `scanNilBytes`, `parseFrom`, `parseHeader`, `parseUpstream`,
    `linecount`, `lines`, `extractShortStat`.
  - treestate.go: `TreeState`, `treeStateFromDir`.

Byte strings are modelled as `List Char` (the relevant inputs are ASCII).
Counters are `Nat` (they are only ever incremented); values read by
`fmt.Sscanf %d` / `strconv.Atoi` are `Int` (a sign is accepted there).
Filesystem existence checks of `treeStateFromDir` are abstracted as a record
of Booleans (one per marker file), and the external git commands are
abstracted by an environment record holding each command's output bytes.
-/

namespace Gitstatus

/-- Error kinds produced by the parsing layer, mirroring the error values of
status.go: the scanner's "last line doesn't end with a nil byte" error, the
`errUnexpectedHeader` value, the `errParseAheadBehind` wrap, and the
`strconv.Atoi` failure inside `extractShortStat`. -/
inductive ParseErr where
  | noNilTerm
  | unexpectedHeader
  | aheadBehind
  | numConv
deriving DecidableEq

instance {ε α : Type} [DecidableEq ε] [DecidableEq α] : DecidableEq (Except ε α) := fun a b =>
  match a, b with
  | .error e, .error f =>
    if h : e = f then .isTrue (by rw [h]) else .isFalse (fun hc => by cases hc; exact h rfl)
  | .error _, .ok _ => .isFalse (fun hc => by cases hc)
  | .ok _, .error _ => .isFalse (fun hc => by cases hc)
  | .ok x, .ok y =>
    if h : x = y then .isTrue (by rw [h]) else .isFalse (fun hc => by cases hc; exact h rfl)

/-- The `Porcelain` struct of status.go, field for field. -/
structure Porcelain where
  NumModified : Nat
  NumConflicts : Nat
  NumUntracked : Nat
  NumStaged : Nat
  IsDetached : Bool
  IsInitial : Bool
  LocalBranch : List Char
  RemoteBranch : List Char
  AheadCount : Int
  BehindCount : Int
deriving DecidableEq

/-- The Go zero value of `Porcelain`. -/
def initPorcelain : Porcelain :=
  { NumModified := 0, NumConflicts := 0, NumUntracked := 0, NumStaged := 0
    IsDetached := false, IsInitial := false, LocalBranch := [], RemoteBranch := []
    AheadCount := 0, BehindCount := 0 }

/-- The `TreeState` enumeration of treestate.go. -/
inductive TreeState where
  | Default
  | Rebasing
  | AM
  | AMRebase
  | Merging
  | CherryPicking
  | Reverting
  | Bisecting
deriving DecidableEq

/-- The `Status` struct of status.go; the embedded `Porcelain` is the `porcelain`
field here, with the promoted Go field selectors defined below. -/
structure Status where
  porcelain : Porcelain
  NumStashed : Nat
  HEAD : List Char
  State : TreeState
  IsClean : Bool
  Insertions : Int
  Deletions : Int
deriving DecidableEq

def Status.NumModified (s : Status) : Nat := s.porcelain.NumModified

def Status.NumConflicts (s : Status) : Nat := s.porcelain.NumConflicts

def Status.NumUntracked (s : Status) : Nat := s.porcelain.NumUntracked

def Status.NumStaged (s : Status) : Nat := s.porcelain.NumStaged

def Status.IsDetached (s : Status) : Bool := s.porcelain.IsDetached

def Status.IsInitial (s : Status) : Bool := s.porcelain.IsInitial

def Status.LocalBranch (s : Status) : List Char := s.porcelain.LocalBranch

/-- The NUL byte used as the record terminator of `git status -z`. -/
def nulChar : Char := Char.ofNat 0

/-- Character class of the file-status regexp `[ MADRCUT?!]`. -/
def codeClass : List Char := [' ', 'M', 'A', 'D', 'R', 'C', 'U', 'T', '?', '!']

/-- The literal `"..."` separating local branch from upstream in a header. -/
def dots3 : List Char := ['.', '.', '.']

/-- The literal `"ahead"`. -/
def aheadLit : List Char := ['a', 'h', 'e', 'a', 'd']

/-- The literal `"behind"`. -/
def behindLit : List Char := ['b', 'e', 'h', 'i', 'n', 'd']

/-- The literal `"insertion"`. -/
def insertionLit : List Char := ['i', 'n', 's', 'e', 'r', 't', 'i', 'o', 'n']

/-- The literal `"deletion"`. -/
def deletionLit : List Char := ['d', 'e', 'l', 'e', 't', 'i', 'o', 'n']

/-- The `detachedStr` header sentinel `"## HEAD (no branch)"`. -/
def detachedLine : List Char :=
  ['#', '#', ' ', 'H', 'E', 'A', 'D', ' ', '(', 'n', 'o', ' ', 'b', 'r', 'a', 'n', 'c', 'h', ')']

/-- The `initialPrefix` header marker `"## No commits yet on "`. -/
def initialMark : List Char :=
  ['#', '#', ' ', 'N', 'o', ' ', 'c', 'o', 'm', 'm', 'i', 't', 's', ' ', 'y', 'e', 't', ' ',
   'o', 'n', ' ']

/-- The cutset `"[]"` of the `strings.Trim` call in `parseUpstream`. -/
def brackets : List Char := ['[', ']']

/-- Index of the first occurrence of `pat` in `l`, as `strings.Index`
(`some 0` for an empty pattern, `none` when absent). -/
def findSubstrIdx (l pat : List Char) : Option Nat :=
  match l with
  | [] => if pat.isPrefixOf ([] : List Char) then some 0 else none
  | c :: xs => if pat.isPrefixOf (c :: xs) then some 0 else (findSubstrIdx xs pat).map (· + 1)

/-- Whether `pat` occurs in `l` (`strings.Contains`). -/
def containsSubstr (l pat : List Char) : Bool := (findSubstrIdx l pat).isSome

/-- Index of the first occurrence of byte `c` in `l` (`strings.IndexByte`). -/
def charIdx (l : List Char) (c : Char) : Option Nat :=
  match l with
  | [] => none
  | x :: xs => if x = c then some 0 else (charIdx xs c).map (· + 1)

/-- Value of a run of decimal digit characters. -/
def digitsVal (ds : List Char) : Nat :=
  ds.foldl (fun a c => 10 * a + (c.toNat - 48)) 0

/-- `strconv.Atoi`: an optional sign followed by at least one digit, consuming
the whole string; `none` on any other input. -/
def goAtoi (l : List Char) : Option Int :=
  match l with
  | [] => none
  | '-' :: rest =>
      if rest ≠ [] ∧ rest.all Char.isDigit then some (-(digitsVal rest : Int)) else none
  | '+' :: rest =>
      if rest ≠ [] ∧ rest.all Char.isDigit then some ((digitsVal rest : Int)) else none
  | c :: rest =>
      if (c :: rest).all Char.isDigit then some ((digitsVal (c :: rest) : Int)) else none

/-- The `%d` verb of `fmt.Sscanf`: skip whitespace, optional sign, a maximal
nonempty digit run; returns the value and the unconsumed input. -/
def scanInt (l : List Char) : Option (Int × List Char) :=
  match l.dropWhile Char.isWhitespace with
  | '-' :: rest =>
      if rest.takeWhile Char.isDigit = [] then none
      else some (-(digitsVal (rest.takeWhile Char.isDigit) : Int), rest.dropWhile Char.isDigit)
  | '+' :: rest =>
      if rest.takeWhile Char.isDigit = [] then none
      else some ((digitsVal (rest.takeWhile Char.isDigit) : Int), rest.dropWhile Char.isDigit)
  | l1 =>
      if l1.takeWhile Char.isDigit = [] then none
      else some ((digitsVal (l1.takeWhile Char.isDigit) : Int), l1.dropWhile Char.isDigit)

/-- Match a literal piece of a scan format against the input. -/
def matchLit (lit l : List Char) : Option (List Char) :=
  if lit.isPrefixOf l then some (l.drop lit.length) else none

/-- `fmt.Sscanf(s, "ahead %d", ...)`. -/
def scanAhead (s : List Char) : Option Int :=
  match matchLit aheadLit s with
  | none => none
  | some r1 => (scanInt r1).map (·.1)

/-- `fmt.Sscanf(s, "behind %d", ...)`. -/
def scanBehind (s : List Char) : Option Int :=
  match matchLit behindLit s with
  | none => none
  | some r1 => (scanInt r1).map (·.1)

/-- `fmt.Sscanf(s, "ahead %d, behind %d", ...)`: returns which of the two
arguments were assigned (Sscanf assigns as it scans) and overall success. -/
def scanAheadBehind (s : List Char) : Option Int × Option Int × Bool :=
  match matchLit aheadLit s with
  | none => (none, none, false)
  | some r1 =>
    match scanInt r1 with
    | none => (none, none, false)
    | some (a, r2) =>
      match matchLit [','] r2 with
      | none => (some a, none, false)
      | some r3 =>
        match matchLit behindLit (r3.dropWhile Char.isWhitespace) with
        | none => (some a, none, false)
        | some r4 =>
          match scanInt r4 with
          | none => (some a, none, false)
          | some (b, _) => (some a, some b, true)

/-- `strings.Trim`: remove leading and trailing characters of `cut`. -/
def trimCutset (cut l : List Char) : List Char :=
  ((l.dropWhile (fun c => cut.contains c)).reverse.dropWhile (fun c => cut.contains c)).reverse

/-- `strings.TrimSpace` / `bytes.TrimSpace` (ASCII whitespace). -/
def trimSpace (l : List Char) : List Char :=
  ((l.dropWhile Char.isWhitespace).reverse.dropWhile Char.isWhitespace).reverse

/-- `parseUpstream` of status.go: remote branch name up to the first space,
then the bracketed divergence annotation scanned with `fmt.Sscanf`.  All
failures are reported as the `errParseAheadBehind` kind. -/
def Porcelain.parseUpstream (p : Porcelain) (s : List Char) : Porcelain × Option ParseErr :=
  match charIdx s ' ' with
  | none => ({ p with RemoteBranch := s }, none)
  | some pos =>
    let p1 := { p with RemoteBranch := s.take pos }
    let s2 := trimCutset brackets (s.drop (pos + 1))
    if containsSubstr s2 aheadLit && containsSubstr s2 behindLit then
      match scanAheadBehind s2 with
      | (oa, ob, suc) =>
        let p2 := match oa with | some a => { p1 with AheadCount := a } | none => p1
        let p3 := match ob with | some b => { p2 with BehindCount := b } | none => p2
        (p3, if suc then none else some ParseErr.aheadBehind)
    else if containsSubstr s2 aheadLit then
      match scanAhead s2 with
      | some a => ({ p1 with AheadCount := a }, none)
      | none => (p1, some ParseErr.aheadBehind)
    else if containsSubstr s2 behindLit then
      match scanBehind s2 with
      | some b => ({ p1 with BehindCount := b }, none)
      | none => (p1, some ParseErr.aheadBehind)
    else (p1, some ParseErr.aheadBehind)

/-- `parseHeader` of status.go.  Note that on the upstream path the source
discards the error returned by `parseUpstream` (`p.parseUpstream(line[pos+3:])`
with the result unused), so this path never reports an error. -/
def Porcelain.parseHeader (p : Porcelain) (line : List Char) : Porcelain × Option ParseErr :=
  if line = detachedLine then ({ p with IsDetached := true }, none)
  else if initialMark.isPrefixOf line then
    ({ p with IsInitial := true, LocalBranch := line.drop initialMark.length }, none)
  else if line.length < 4 then (p, some ParseErr.unexpectedHeader)
  else
    match findSubstrIdx line dots3 with
    | none =>
      if (charIdx (line.drop 3) ' ').isSome then (p, some ParseErr.unexpectedHeader)
      else ({ p with LocalBranch := line.drop 3 }, none)
    | some pos =>
      let p1 := { p with LocalBranch := (line.drop 3).take (pos - 3) }
      ((p1.parseUpstream (line.drop (pos + 3))).1, none)

/-- The possible effects of one file record on the counters. -/
inductive Effect where
  | conflicts
  | bothModStaged
  | modified
  | untracked
  | staged
deriving DecidableEq

/-- Apply one counting effect to the accumulator. -/
def applyEffect : Effect → Porcelain → Porcelain
  | .conflicts, p => { p with NumConflicts := p.NumConflicts + 1 }
  | .bothModStaged, p => { p with NumModified := p.NumModified + 1, NumStaged := p.NumStaged + 1 }
  | .modified, p => { p with NumModified := p.NumModified + 1 }
  | .untracked, p => { p with NumUntracked := p.NumUntracked + 1 }
  | .staged, p => { p with NumStaged := p.NumStaged + 1 }

/-- Which counters a two-code record updates according to the switch of
`parseFrom` in status.go. -/
def codeEffect (a b : Char) : Effect :=
  if a = 'U' ∨ b = 'U' ∨ (a = 'A' ∧ b = 'A') then .conflicts
  else if (a = 'A' ∧ b = 'M') ∨ (a = 'M' ∧ b = 'M') ∨ (a = 'M' ∧ b = 'D') ∨
          (a = 'R' ∧ b = 'M') ∨ (a = 'R' ∧ b = 'D') ∨ (a = 'A' ∧ b = 'T') then .bothModStaged
  else if b = 'M' ∨ b = 'D' then .modified
  else if a = '?' ∧ b = '?' then .untracked
  else .staged

/-- The counter updates of the switch of `parseFrom`, written as the source
writes them (one increment statement per case). -/
def updateCounts (a b : Char) (p : Porcelain) : Porcelain :=
  if a = 'U' ∨ b = 'U' ∨ (a = 'A' ∧ b = 'A') then
    { p with NumConflicts := p.NumConflicts + 1 }
  else if (a = 'A' ∧ b = 'M') ∨ (a = 'M' ∧ b = 'M') ∨ (a = 'M' ∧ b = 'D') ∨
          (a = 'R' ∧ b = 'M') ∨ (a = 'R' ∧ b = 'D') ∨ (a = 'A' ∧ b = 'T') then
    { p with NumModified := p.NumModified + 1, NumStaged := p.NumStaged + 1 }
  else if b = 'M' ∨ b = 'D' then { p with NumModified := p.NumModified + 1 }
  else if a = '?' ∧ b = '?' then { p with NumUntracked := p.NumUntracked + 1 }
  else { p with NumStaged := p.NumStaged + 1 }

/-- Process one NUL-delimited record of the status stream: records not matching
the regexp `^(##|[ MADRCUT?!]{2}) .*$` are skipped (Go `.` does not match a
newline), a header record goes to `parseHeader`, any other record updates the
counters. -/
def processLine (p : Porcelain) (line : List Char) : Porcelain × Option ParseErr :=
  match line with
  | a :: b :: c :: rest =>
    if c = ' ' ∧ ((a = '#' ∧ b = '#') ∨ (codeClass.contains a = true ∧ codeClass.contains b = true))
        ∧ rest.contains '\n' = false then
      if a = '#' ∧ b = '#' then Porcelain.parseHeader p (a :: b :: c :: rest)
      else (updateCounts a b p, none)
    else (p, none)
  | _ => (p, none)

/-- The scanning loop of `parseFrom` with the `scanNilBytes` split function:
`cur` holds the (reversed) bytes of the current record; a NUL terminates a
record, and input exhausted mid-record is the "last line doesn't end with a
nil byte" error. -/
def parseLoop (p : Porcelain) (cur : List Char) : List Char → Except ParseErr Porcelain
  | [] => if cur.isEmpty then .ok p else .error ParseErr.noNilTerm
  | c :: cs =>
    if c = nulChar then
      match processLine p cur.reverse with
      | (_, some e) => .error e
      | (p1, none) => parseLoop p1 [] cs
    else parseLoop p (c :: cur) cs

/-- `(*Porcelain).parseFrom` of status.go over the raw status-query bytes. -/
def Porcelain.parseFrom (input : List Char) : Except ParseErr Porcelain :=
  parseLoop initPorcelain [] input

/-- `bytes.Split` on a single separator byte. -/
def splitOnChar (c : Char) : List Char → List (List Char)
  | [] => [[]]
  | x :: xs =>
    match splitOnChar c xs with
    | [] => [[]]
    | t :: ts => if x = c then [] :: t :: ts else (x :: t) :: ts

/-- The inner loop of `extractShortStat`: for each comma-separated segment,
a segment containing "insertion" (checked first) or "deletion" has the text
before that substring parsed with `strconv.Atoi`; an Atoi failure aborts. -/
def extractLoop : Int → Int → List (List Char) → Except ParseErr (Int × Int)
  | ins, del, [] => .ok (ins, del)
  | ins, del, seg :: rest =>
    match findSubstrIdx (trimSpace seg) insertionLit with
    | some pos =>
      match goAtoi (trimSpace ((trimSpace seg).take pos)) with
      | some v => extractLoop v del rest
      | none => .error ParseErr.numConv
    | none =>
      match findSubstrIdx (trimSpace seg) deletionLit with
      | some pos =>
        match goAtoi (trimSpace ((trimSpace seg).take pos)) with
        | some v => extractLoop ins v rest
        | none => .error ParseErr.numConv
      | none => extractLoop ins del rest

/-- `extractShortStat` of status.go. -/
def extractShortStat (out : List Char) : Except ParseErr (Int × Int) :=
  extractLoop 0 0 (splitOnChar ',' out)

/-- One token of `bufio.ScanLines`: strip a single trailing carriage return. -/
def dropFinalCR (l : List Char) : List Char :=
  if l.getLast? = some '\r' then l.dropLast else l

/-- The token list of `bufio.ScanLines`: split on newlines; a final newline
does not open a trailing empty token, a final unterminated line still counts. -/
def linesOf (l : List Char) : List (List Char) :=
  if l = [] then []
  else if l.getLast? = some '\n' then (splitOnChar '\n' l).dropLast.map dropFinalCR
  else (splitOnChar '\n' l).map dropFinalCR

/-- The `linecount` parser of status.go (used on `git stash list` output). -/
def countLines (l : List Char) : Nat := (linesOf l).length

/-- Presence of the marker files that `treeStateFromDir` probes with
`os.Stat`; the filesystem is abstracted as this record of Booleans
(a stat error counts as "absent"). -/
structure GitDir where
  rebaseMerge : Bool
  rebaseApply : Bool
  rebaseApplyRebasing : Bool
  rebaseApplyApplying : Bool
  mergeHead : Bool
  cherryPickHead : Bool
  revertHead : Bool
  bisectLog : Bool
deriving DecidableEq

/-- `treeStateFromDir` of treestate.go: the ordered switch over marker files. -/
def treeStateFromDir (d : GitDir) : TreeState :=
  if d.rebaseMerge then .Rebasing
  else if d.rebaseApply then
    if d.rebaseApplyRebasing then .Rebasing
    else if d.rebaseApplyApplying then .AM
    else .AMRebase
  else if d.mergeHead then .Merging
  else if d.cherryPickHead then .CherryPicking
  else if d.revertHead then .Reverting
  else if d.bisectLog then .Bisecting
  else .Default

/-- The external queries `newStatus` can issue, in the order the source runs
them. -/
inductive Query where
  | status
  | diffStat
  | stashList
  | revParse
deriving DecidableEq

/-- Outputs of the external git commands and the metadata-directory content,
abstracting the command-execution collaborator of `newStatus`. -/
structure Env where
  statusOut : List Char
  diffOut : List Char
  stashOut : List Char
  revOut : List Char
  gitdir : GitDir

/-- `newStatus` of status.go: status query, diff-shortstat query, then (only
when not in the initial-commit state) the stash-count and rev-parse queries.
Returns the result together with the list of issued queries.  `.ok none`
models the `return nil, err` with a nil `err` taken when the rev-parse output
does not have exactly two lines. -/
def newStatus (env : Env) : Except ParseErr (Option Status) × List Query :=
  match Porcelain.parseFrom env.statusOut with
  | .error e => (.error e, [Query.status])
  | .ok por =>
    match extractShortStat env.diffOut with
    | .error e => (.error e, [Query.status, Query.diffStat])
    | .ok stats =>
      if por.IsInitial then
        (.ok (some { porcelain := por, NumStashed := 0, HEAD := [], State := .Default,
                     IsClean := false, Insertions := 0, Deletions := 0 }),
         [Query.status, Query.diffStat])
      else
        match linesOf env.revOut with
        | [_l0, l1] =>
          (.ok (some { porcelain := por
                       State := treeStateFromDir env.gitdir
                       HEAD := trimSpace l1
                       NumStashed := countLines env.stashOut
                       IsClean := por.NumStaged + por.NumConflicts + por.NumModified +
                                  por.NumUntracked == 0
                       Insertions := stats.1
                       Deletions := stats.2 }),
           [Query.status, Query.diffStat, Query.stashList, Query.revParse])
        | _ => (.ok none, [Query.status, Query.diffStat, Query.stashList, Query.revParse])

/-! Spec-side definitions (written from the specification's wording, for the
refinement-style claims) and the concrete inputs used by witnesses and
counterexamples. -/

/-- First-match lookup over an ordered list of (condition, state) pairs,
falling back to `Default`; this is the specification's "ordered predicate
chain, the first matching condition wins". -/
def firstMatchState (l : List (Bool × TreeState)) : TreeState :=
  match l.find? (fun e => e.1) with
  | some e => e.2
  | none => .Default

/-- The special-state table in the order the specification gives it:
rebase-merge, rebase-apply (refined by the nested flags), MERGE_HEAD,
CHERRY_PICK_HEAD, REVERT_HEAD, BISECT_LOG. -/
def specTreeState (d : GitDir) : TreeState :=
  firstMatchState
    [(d.rebaseMerge, .Rebasing),
     (d.rebaseApply,
       if d.rebaseApplyRebasing then .Rebasing
       else if d.rebaseApplyApplying then .AM
       else .AMRebase),
     (d.mergeHead, .Merging),
     (d.cherryPickHead, .CherryPicking),
     (d.revertHead, .Reverting),
     (d.bisectLog, .Bisecting)]

/-- The classification table as the specification words it, with the
staged-and-modified combinations given as an explicit list of code pairs. -/
def specEffect (a b : Char) : Effect :=
  if a = 'U' ∨ b = 'U' ∨ (a = 'A' ∧ b = 'A') then .conflicts
  else if [('A', 'M'), ('M', 'M'), ('M', 'D'), ('R', 'M'), ('R', 'D'), ('A', 'T')].contains
            (a, b) then .bothModStaged
  else if b = 'M' ∨ b = 'D' then .modified
  else if a = '?' ∧ b = '?' then .untracked
  else .staged

/-- The header marker `"## "`. -/
def hdrMark : List Char := ['#', '#', ' ']

/-- A header of the shape `## <b>...<r> [ahead <ds>]`. -/
def hdrAhead (b r ds : List Char) : List Char :=
  hdrMark ++ b ++ dots3 ++ r ++ (' ' :: '[' :: aheadLit) ++ (' ' :: ds) ++ [']']

/-- A header of the shape `## <b>...<r> [behind <ds>]`. -/
def hdrBehind (b r ds : List Char) : List Char :=
  hdrMark ++ b ++ dots3 ++ r ++ (' ' :: '[' :: behindLit) ++ (' ' :: ds) ++ [']']

/-- A header of the shape `## <b>...<r> [ahead <ds>, behind <ds2>]`. -/
def hdrAheadBehind (b r ds ds2 : List Char) : List Char :=
  hdrMark ++ b ++ dots3 ++ r ++ (' ' :: '[' :: aheadLit) ++ (' ' :: ds) ++
    (',' :: ' ' :: behindLit) ++ (' ' :: ds2) ++ [']']

/-- Is a (trimmed) short-stat segment an insertion segment? -/
def insSeg (seg : List Char) : Bool := (findSubstrIdx (trimSpace seg) insertionLit).isSome

/-- Is a (trimmed) short-stat segment a deletion segment (the source checks
"insertion" first, so a segment holding both counts as insertion)? -/
def delSeg (seg : List Char) : Bool :=
  !insSeg seg && (findSubstrIdx (trimSpace seg) deletionLit).isSome

/-- The count carried by a short-stat segment: the Atoi of the trimmed text
before the first occurrence of `lit` in the trimmed segment. -/
def segNum (lit seg : List Char) : Option Int :=
  match findSubstrIdx (trimSpace seg) lit with
  | some pos => goAtoi (trimSpace ((trimSpace seg).take pos))
  | none => none

/-- The insertion count the specification assigns to a segment list: the
leading numeric portion of the segment containing "insertion", zero when no
segment does. -/
def specInsCount (ins : Int) (segs : List (List Char)) : Int :=
  match segs.find? insSeg with
  | some seg => (segNum insertionLit seg).getD 0
  | none => ins

/-- The deletion count the specification assigns to a segment list. -/
def specDelCount (del : Int) (segs : List (List Char)) : Int :=
  match segs.find? delSeg with
  | some seg => (segNum deletionLit seg).getD 0
  | none => del

/-- A metadata directory with no marker file present. -/
def noMarkers : GitDir :=
  { rebaseMerge := false, rebaseApply := false, rebaseApplyRebasing := false
    rebaseApplyApplying := false, mergeHead := false, cherryPickHead := false
    revertHead := false, bisectLog := false }

/-- A clean working tree that nevertheless has two stash entries. -/
def envStash : Env :=
  { statusOut := "## main".toList ++ [nulChar]
    diffOut := []
    stashOut := "stash@0: a\nstash@1: b\n".toList
    revOut := ".git\nabc1234\n".toList
    gitdir := noMarkers }

/-- The snapshot `newStatus` computes for `envStash`. -/
def stStash : Status :=
  { porcelain := { initPorcelain with LocalBranch := "main".toList }
    NumStashed := 2
    HEAD := "abc1234".toList
    State := .Default
    IsClean := true
    Insertions := 0
    Deletions := 0 }

/-- A repository in the initial-commit state whose diff query reports two
inserted lines. -/
def envInitial : Env :=
  { statusOut := "## No commits yet on main".toList ++ [nulChar]
    diffOut := "1 file changed, 2 insertions(+)".toList
    stashOut := "s\n".toList
    revOut := ".git\nabc1234\n".toList
    gitdir := noMarkers }

/-- The porcelain state parsed from `envInitial`'s status output. -/
def porInitial : Porcelain :=
  { initPorcelain with IsInitial := true, LocalBranch := "main".toList }

/-- The snapshot `newStatus` computes for `envInitial`. -/
def stInitial : Status :=
  { porcelain := porInitial
    NumStashed := 0
    HEAD := []
    State := .Default
    IsClean := false
    Insertions := 0
    Deletions := 0 }

/-! Generic helper lemmas about the string primitives. -/

theorem charIdx_isSome_iff (l : List Char) (c : Char) : (charIdx l c).isSome = true ↔ c ∈ l := by
  induction l with
  | nil => simp [charIdx]
  | cons x xs ih =>
    by_cases hx : x = c
    · subst hx; simp [charIdx]
    · simp [charIdx, hx, Option.isSome_map, ih, Ne.symm hx]

theorem charIdx_append_notmem (r v : List Char) (c : Char) (h : ∀ x ∈ r, x ≠ c) :
    charIdx (r ++ c :: v) c = some r.length := by
  induction r with
  | nil => simp [charIdx]
  | cons x xs ih =>
    have hx : x ≠ c := h x (by simp)
    simp only [List.cons_append, charIdx, if_neg hx, List.append_eq]
    rw [ih (fun y hy => h y (by simp [hy]))]
    rfl

theorem containsSubstr_of_isPrefixOf (l pat : List Char) (h : pat.isPrefixOf l = true) :
    containsSubstr l pat = true := by
  cases l with
  | nil => simp [containsSubstr, findSubstrIdx, h]
  | cons c xs => simp [containsSubstr, findSubstrIdx, h]

theorem isPrefixOf_append_self (l t : List Char) : l.isPrefixOf (l ++ t) = true := by
  rw [List.isPrefixOf_iff_prefix]
  exact List.prefix_append l t

theorem findSubstrIdx_none_of_head_notmem (l pat : List Char) (c0 : Char) (rest : List Char)
    (hp : pat = c0 :: rest) (h : ∀ x ∈ l, x ≠ c0) : findSubstrIdx l pat = none := by
  induction l with
  | nil => subst hp; simp [findSubstrIdx, List.isPrefixOf]
  | cons x xs ih =>
    have hx : x ≠ c0 := h x (by simp)
    have hpre : pat.isPrefixOf (x :: xs) = false := by
      subst hp
      simp [List.isPrefixOf, Ne.symm hx]
    simp only [findSubstrIdx, hpre, if_neg, Bool.false_eq_true, if_false]
    rw [ih (fun y hy => h y (by simp [hy]))]
    rfl

theorem containsSubstr_append_right (x y pat : List Char) (h : containsSubstr y pat = true) :
    containsSubstr (x ++ y) pat = true := by
  induction x with
  | nil => simpa using h
  | cons c xs ih =>
    simp only [containsSubstr, List.cons_append, findSubstrIdx, List.append_eq]
    by_cases hpre : pat.isPrefixOf (c :: (xs ++ y)) = true
    · rw [if_pos hpre]
      rfl
    · rw [if_neg hpre]
      have := ih
      simp only [containsSubstr] at this
      cases hfi : findSubstrIdx (xs ++ y) pat with
      | none => rw [hfi] at this; exact absurd this (by simp)
      | some k => simp [hfi]

theorem takeWhile_all_eq (p : Char → Bool) (l : List Char) (h : ∀ x ∈ l, p x = true) :
    l.takeWhile p = l :=
  List.takeWhile_eq_self_iff.mpr h

theorem dropWhile_all_eq (p : Char → Bool) (l : List Char) (h : ∀ x ∈ l, p x = true) :
    l.dropWhile p = [] := by
  induction l with
  | nil => rfl
  | cons x xs ih => simp [List.dropWhile_cons, h x (by simp), ih (fun y hy => h y (by simp [hy]))]

theorem takeWhile_append_stop (p : Char → Bool) (l r : List Char) (x : Char)
    (hl : ∀ c ∈ l, p c = true) (hx : p x = false) :
    (l ++ x :: r).takeWhile p = l ∧ (l ++ x :: r).dropWhile p = x :: r := by
  induction l with
  | nil => simp [List.takeWhile_cons, List.dropWhile_cons, hx]
  | cons c cs ih =>
    have hc : p c = true := hl c (by simp)
    have := ih (fun y hy => hl y (by simp [hy]))
    simp [List.takeWhile_cons, List.dropWhile_cons, hc, this.1, this.2]

theorem digit_ne_of_not_digit (c d : Char) (h : c.isDigit = true) (hd : d.isDigit = false) :
    c ≠ d := by
  intro e
  rw [e, hd] at h
  exact Bool.noConfusion h

/-! Claim C4: the special-state detector. -/

/-- Claim C4: for every combination of marker files, `treeStateFromDir` returns
the state of the first matching condition in the fixed order rebase-merge,
rebase-apply (refined by the nested rebasing/applying flags), MERGE_HEAD,
CHERRY_PICK_HEAD, REVERT_HEAD, BISECT_LOG, and `Default` when none is present;
in particular, with both a merge marker and a cherry-pick marker present the
result is `Merging`. -/
theorem treeState_firstMatch :
    (∀ d : GitDir, treeStateFromDir d = specTreeState d) ∧
    treeStateFromDir { noMarkers with mergeHead := true, cherryPickHead := true } =
      TreeState.Merging := by
  constructor
  · intro d
    rcases d with ⟨a, b, c, e, f, g, h, i⟩
    cases a <;> cases b <;> cases c <;> cases e <;> cases f <;> cases g <;> cases h <;>
      cases i <;> rfl
  · rfl

/-! Claim C2: the two-code record classification table. -/

theorem updateCounts_eq_applyEffect (a b : Char) (p : Porcelain) :
    updateCounts a b p = applyEffect (codeEffect a b) p := by
  unfold updateCounts codeEffect
  split_ifs <;> rfl

theorem specEffect_eq_codeEffect : ∀ a ∈ codeClass, ∀ b ∈ codeClass,
    specEffect a b = codeEffect a b := by decide

/-- Claim C2: a well-formed two-code record (both code letters in the regexp
class, a space, and a newline-free remainder) updates the counters exactly as
the classification table says: a 'U' on either side or the pair AA counts one
conflict; AM, MM, MD, RM, RD, AT count one modified and one staged; otherwise
a second letter M or D counts one modified; ?? counts one untracked; any
other matching record counts one staged. -/
theorem statusCode_classification (p : Porcelain) (a b : Char) (rest : List Char)
    (ha : a ∈ codeClass) (hb : b ∈ codeClass) (hr : rest.contains '\n' = false) :
    processLine p (a :: b :: ' ' :: rest) = (applyEffect (specEffect a b) p, none) := by
  have hsharp : ¬(a = '#' ∧ b = '#') := by
    rintro ⟨rfl, -⟩
    exact absurd ha (by decide)
  have hca : codeClass.contains a = true := List.elem_eq_true_of_mem ha
  have hcb : codeClass.contains b = true := List.elem_eq_true_of_mem hb
  show (if _ ∧ _ ∧ _ then _ else _) = _
  rw [if_pos ⟨rfl, Or.inr ⟨hca, hcb⟩, hr⟩, if_neg hsharp, updateCounts_eq_applyEffect,
    specEffect_eq_codeEffect a ha b hb]

/-- Witness for C2 at the record `MM file`. -/
theorem statusCode_classification_witness :
    processLine initPorcelain ('M' :: 'M' :: ' ' :: "file".toList) =
      (applyEffect (specEffect 'M' 'M') initPorcelain, none) :=
  statusCode_classification initPorcelain 'M' 'M' ("file".toList) (by decide) (by decide)
    (by decide)

/-! Claim C3: a malformed divergence annotation.  `parseUpstream` does build
the ahead/behind parse error, but `parseHeader` discards its result
(`p.parseUpstream(line[pos+3:])` with the returned error unused), so the
parse of the whole stream completes without any error. -/

/-- Claim C3: at the stream `## b...r [foo]\0` the inner `parseUpstream` call
reports the ahead/behind parse error, yet the full porcelain parse returns a
successfully built result instead of aborting with that error. -/
theorem upstreamError_discarded :
    (({ initPorcelain with LocalBranch := "b".toList } : Porcelain).parseUpstream
        ("r [foo]".toList)).2 = some ParseErr.aheadBehind ∧
    Porcelain.parseFrom ("## b...r [foo]".toList ++ [nulChar]) =
      .ok { initPorcelain with LocalBranch := "b".toList, RemoteBranch := "r".toList } := by
  constructor
  · decide
  · decide

/-! Claim C6: header lines without a `...` separator. -/

/-- Counterexample to C6 as stated: the detached-HEAD header contains spaces
after the `## ` marker and no `...` separator, yet it parses without any
error (the claim demands a malformed-header error for it). -/
theorem header_space_counterexample :
    containsSubstr detachedLine dots3 = false ∧
    ' ' ∈ detachedLine.drop 3 ∧
    Porcelain.parseHeader initPorcelain detachedLine =
      ({ initPorcelain with IsDetached := true }, none) := by
  refine ⟨by decide, by decide, by decide⟩

/-- Claim C6 (amended): for every header line without a `...` separator that
is neither the detached-HEAD sentinel nor an initial-commit header: a
non-empty, space-free remainder becomes the local branch with empty remote
and zero divergence, while a remainder containing a space, or an empty
remainder, is a malformed-header error. -/
theorem bareBranch_header (rem : List Char)
    (hdots : containsSubstr (hdrMark ++ rem) dots3 = false)
    (hdet : hdrMark ++ rem ≠ detachedLine)
    (hinit : initialMark.isPrefixOf (hdrMark ++ rem) = false) :
    (rem ≠ [] → ' ' ∉ rem →
      Porcelain.parseHeader initPorcelain (hdrMark ++ rem) =
        ({ initPorcelain with LocalBranch := rem }, none)) ∧
    (' ' ∈ rem ∨ rem = [] →
      Porcelain.parseHeader initPorcelain (hdrMark ++ rem) =
        (initPorcelain, some ParseErr.unexpectedHeader)) := by
  have hdrop : (hdrMark ++ rem).drop 3 = rem := by
    simp [hdrMark]
  have hlen : (hdrMark ++ rem).length = 3 + rem.length := by
    simp [hdrMark]
    omega
  have hfind : findSubstrIdx (hdrMark ++ rem) dots3 = none := by
    cases hfi : findSubstrIdx (hdrMark ++ rem) dots3 with
    | none => rfl
    | some k =>
      simp only [containsSubstr, hfi] at hdots
      exact absurd hdots (by simp)
  constructor
  · intro hne hsp
    have hlt : ¬ (hdrMark ++ rem).length < 4 := by
      rw [hlen]
      cases rem with
      | nil => exact absurd rfl hne
      | cons c cs =>
        simp only [List.length_cons]
        omega
    have hnone : charIdx rem ' ' = none := by
      cases h : charIdx rem ' ' with
      | none => rfl
      | some k => exact absurd ((charIdx_isSome_iff rem ' ').mp (by simp [h])) hsp
    unfold Porcelain.parseHeader
    rw [if_neg hdet, if_neg (by simp [hinit]), if_neg hlt, hfind]
    simp [hdrop, hnone]
  · intro hcase
    unfold Porcelain.parseHeader
    rw [if_neg hdet, if_neg (by simp [hinit])]
    rcases hcase with hsp | hnil
    · have hlt : ¬ (hdrMark ++ rem).length < 4 := by
        rw [hlen]
        cases rem with
        | nil => simp at hsp
        | cons c cs =>
          simp only [List.length_cons]
          omega
      have hsome : (charIdx rem ' ').isSome = true := (charIdx_isSome_iff rem ' ').mpr hsp
      rw [if_neg hlt, hfind]
      simp [hdrop, hsome]
    · subst hnil
      rw [if_pos (by rw [hlen]; simp)]

/-- Witness for C6 (amended) at `## main` and `## a b`. -/
theorem bareBranch_header_witness :
    Porcelain.parseHeader initPorcelain (hdrMark ++ "main".toList) =
      ({ initPorcelain with LocalBranch := "main".toList }, none) ∧
    Porcelain.parseHeader initPorcelain (hdrMark ++ "a b".toList) =
      (initPorcelain, some ParseErr.unexpectedHeader) :=
  ⟨(bareBranch_header ("main".toList) (by decide) (by decide) (by decide)).1 (by decide)
      (by decide),
   (bareBranch_header ("a b".toList) (by decide) (by decide) (by decide)).2
      (Or.inl (by decide))⟩

/-! Claim C8: the NUL-termination policy of the scanner. -/

theorem processLine_cons3 (p : Porcelain) (a b c : Char) (rest : List Char) :
    processLine p (a :: b :: c :: rest) =
      if c = ' ' ∧ ((a = '#' ∧ b = '#') ∨
          (codeClass.contains a = true ∧ codeClass.contains b = true)) ∧
          rest.contains '\n' = false then
        if a = '#' ∧ b = '#' then Porcelain.parseHeader p (a :: b :: c :: rest)
        else (updateCounts a b p, none)
      else (p, none) := rfl

theorem parseHeader_err (p : Porcelain) (line : List Char) (e : ParseErr)
    (h : (Porcelain.parseHeader p line).2 = some e) : e = ParseErr.unexpectedHeader := by
  unfold Porcelain.parseHeader at h
  split_ifs at h with h1 h2 h3 h4
  · simp at h
    exact h.symm
  · split at h
    · simp at h
      exact h.symm
    · simp at h
  · split at h
    · simp at h
    · simp at h

theorem processLine_not_noNilTerm (p : Porcelain) (line : List Char)
    (h : (processLine p line).2 = some ParseErr.noNilTerm) : False := by
  rcases line with _ | ⟨a, _ | ⟨b, _ | ⟨c, rest⟩⟩⟩
  · cases h
  · cases h
  · cases h
  · rw [processLine_cons3] at h
    split_ifs at h with h1 h2
    have := parseHeader_err p (a :: b :: c :: rest) ParseErr.noNilTerm h
    cases this

theorem parseLoop_err_of_no_nul (l : List Char) : ∀ (p : Porcelain) (cur : List Char),
    (l = [] → cur ≠ []) → l.getLast? ≠ some nulChar →
    ∃ e, parseLoop p cur l = .error e := by
  induction l with
  | nil =>
    intro p cur h1 _
    refine ⟨ParseErr.noNilTerm, ?_⟩
    have : cur.isEmpty = false := by
      cases cur with
      | nil => exact absurd rfl (h1 rfl)
      | cons c cs => rfl
    simp [parseLoop, this]
  | cons c cs ih =>
    intro p cur _ h2
    by_cases hc : c = nulChar
    · subst hc
      cases cs with
      | nil => exact absurd rfl h2
      | cons d ds =>
        rw [List.getLast?_cons_cons] at h2
        show ∃ e, (if nulChar = nulChar then _ else _) = _
        rw [if_pos rfl]
        cases hp : processLine p cur.reverse with
        | mk p1 oe =>
          cases oe with
          | some e => exact ⟨e, by simp⟩
          | none => exact ih p1 [] (by simp) h2
    · have h2w : cs.getLast? ≠ some nulChar := by
        cases cs with
        | nil => simp
        | cons d ds =>
          rw [List.getLast?_cons_cons] at h2
          exact h2
      show ∃ e, (if c = nulChar then _ else _) = _
      rw [if_neg hc]
      exact ih p (c :: cur) (by simp) h2w

theorem parseLoop_no_nulErr_of_nul (l : List Char) : ∀ (p : Porcelain) (cur : List Char),
    l.getLast? = some nulChar →
    parseLoop p cur l ≠ .error ParseErr.noNilTerm := by
  induction l with
  | nil =>
    intro p cur h
    simp at h
  | cons c cs ih =>
    intro p cur h
    cases cs with
    | nil =>
      simp at h
      subst h
      show ¬ (if nulChar = nulChar then _ else _) = _
      rw [if_pos rfl]
      cases hp : processLine p cur.reverse with
      | mk p1 oe =>
        cases oe with
        | some e =>
          intro hcon
          cases hcon
          exact processLine_not_noNilTerm p cur.reverse (by rw [hp])
        | none =>
          simp [parseLoop]
    | cons d ds =>
      rw [List.getLast?_cons_cons] at h
      by_cases hc : c = nulChar
      · subst hc
        show ¬ (if nulChar = nulChar then _ else _) = _
        rw [if_pos rfl]
        cases hp : processLine p cur.reverse with
        | mk p1 oe =>
          cases oe with
          | some e =>
            intro hcon
            cases hcon
            exact processLine_not_noNilTerm p cur.reverse (by rw [hp])
          | none => exact ih p1 [] h
      · show ¬ (if c = nulChar then _ else _) = _
        rw [if_neg hc]
        exact ih p (c :: cur) h

/-- Claim C8: a non-empty status stream whose final byte is not the NUL
terminator always makes the porcelain parse return an error, while a stream
ending in NUL never produces the missing-terminator error (it can still fail
on a malformed header, but never with that error). -/
theorem nulTermination (input : List Char) :
    (input ≠ [] → input.getLast? ≠ some nulChar → ∃ e, Porcelain.parseFrom input = .error e) ∧
    (input.getLast? = some nulChar →
      Porcelain.parseFrom input ≠ .error ParseErr.noNilTerm) := by
  constructor
  · intro hne hlast
    exact parseLoop_err_of_no_nul input initPorcelain [] (fun h => absurd h hne) hlast
  · intro hlast
    exact parseLoop_no_nulErr_of_nul input initPorcelain [] hlast

/-- Witness for C8 at the streams `xx` (unterminated) and `## main\0`. -/
theorem nulTermination_witness :
    (∃ e, Porcelain.parseFrom ("xx".toList) = .error e) ∧
    Porcelain.parseFrom ("## main".toList ++ [nulChar]) ≠ .error ParseErr.noNilTerm :=
  ⟨(nulTermination ("xx".toList)).1 (by decide) (by decide),
   (nulTermination ("## main".toList ++ [nulChar])).2 (by decide)⟩

/-! Claim C1: the IsClean invariant.  The source computes
`por.NumStaged+por.NumConflicts+por.NumModified+por.NumUntracked == 0`:
the stash count takes no part, and an initial-state snapshot keeps the zero
value `false` regardless of the counters. -/

/-- Counterexample to C1 as stated: a clean tree with two stash entries gets
`IsClean = true` although `NumStashed = 2`, so the claimed five-way iff fails
on this completed snapshot. -/
theorem isClean_stash_counterexample :
    (newStatus envStash).1 = .ok (some stStash) ∧
    ¬ (stStash.IsClean = true ↔ (stStash.NumStaged = 0 ∧ stStash.NumConflicts = 0 ∧
        stStash.NumModified = 0 ∧ stStash.NumStashed = 0 ∧ stStash.NumUntracked = 0)) := by
  refine ⟨by decide, by decide⟩

/-- Claim C1 (amended): for every completed snapshot computation, `IsClean` is
true iff the snapshot is not in the initial-commit state and `NumStaged`,
`NumConflicts`, `NumModified`, `NumUntracked` are all zero; `NumStashed` does
not participate. -/
theorem isClean_iff_counts (env : Env) (st : Status)
    (h : (newStatus env).1 = .ok (some st)) :
    st.IsClean = true ↔ (st.IsInitial = false ∧ st.NumStaged = 0 ∧ st.NumConflicts = 0 ∧
      st.NumModified = 0 ∧ st.NumUntracked = 0) := by
  unfold newStatus at h
  cases hp : Porcelain.parseFrom env.statusOut with
  | error e => rw [hp] at h; simp at h
  | ok por =>
    rw [hp] at h
    dsimp only at h
    cases hd : extractShortStat env.diffOut with
    | error e => rw [hd] at h; simp at h
    | ok stats =>
      rw [hd] at h
      dsimp only at h
      by_cases hi : por.IsInitial = true
      · rw [if_pos hi] at h
        simp only [Except.ok.injEq, Option.some.injEq] at h
        subst h
        simp [Status.IsInitial, Status.NumStaged, Status.NumConflicts, Status.NumModified,
          Status.NumUntracked, hi]
      · rw [if_neg hi] at h
        cases hl : linesOf env.revOut with
        | nil => rw [hl] at h; simp at h
        | cons l0 t =>
          cases t with
          | nil => rw [hl] at h; simp at h
          | cons l1 t2 =>
            cases t2 with
            | nil =>
              rw [hl] at h
              simp only [Except.ok.injEq, Option.some.injEq] at h
              subst h
              simp only [Status.IsInitial, Status.NumStaged, Status.NumConflicts,
                Status.NumModified, Status.NumUntracked, Bool.not_eq_true] at *
              rw [hi]
              simp only [beq_iff_eq, true_and]
              omega
            | cons l2 t3 => rw [hl] at h; simp at h

/-- Witness for C1 (amended) at the clean-with-stash environment. -/
theorem isClean_iff_counts_witness :
    stStash.IsClean = true ↔ (stStash.IsInitial = false ∧ stStash.NumStaged = 0 ∧
      stStash.NumConflicts = 0 ∧ stStash.NumModified = 0 ∧ stStash.NumUntracked = 0) :=
  isClean_iff_counts envStash stStash (by decide)

/-! Claim C10: the fields of an initial-state snapshot. -/

/-- Claim C10: every successfully returned snapshot with the initial-commit
flag set has `IsClean = false`, `NumStashed = 0`, `Insertions = 0`,
`Deletions = 0`, an empty HEAD and the `Default` state, whatever the counters
and the diff-statistics output (which was computed but is discarded). -/
theorem initial_snapshot_defaults (env : Env) (st : Status)
    (h : (newStatus env).1 = .ok (some st)) (hi : st.IsInitial = true) :
    st.IsClean = false ∧ st.NumStashed = 0 ∧ st.Insertions = 0 ∧ st.Deletions = 0 ∧
    st.HEAD = [] ∧ st.State = TreeState.Default := by
  unfold newStatus at h
  cases hp : Porcelain.parseFrom env.statusOut with
  | error e => rw [hp] at h; simp at h
  | ok por =>
    rw [hp] at h
    dsimp only at h
    cases hd : extractShortStat env.diffOut with
    | error e => rw [hd] at h; simp at h
    | ok stats =>
      rw [hd] at h
      dsimp only at h
      by_cases hpi : por.IsInitial = true
      · rw [if_pos hpi] at h
        simp only [Except.ok.injEq, Option.some.injEq] at h
        subst h
        exact ⟨rfl, rfl, rfl, rfl, rfl, rfl⟩
      · rw [if_neg hpi] at h
        cases hl : linesOf env.revOut with
        | nil => rw [hl] at h; simp at h
        | cons l0 t =>
          cases t with
          | nil => rw [hl] at h; simp at h
          | cons l1 t2 =>
            cases t2 with
            | nil =>
              rw [hl] at h
              simp only [Except.ok.injEq, Option.some.injEq] at h
              subst h
              exact absurd hi (by simpa [Status.IsInitial] using hpi)
            | cons l2 t3 => rw [hl] at h; simp at h

/-- Witness for C10 at `envInitial`, whose diff query reports two insertions
that the returned snapshot nevertheless drops. -/
theorem initial_snapshot_defaults_witness :
    stInitial.IsClean = false ∧ stInitial.NumStashed = 0 ∧ stInitial.Insertions = 0 ∧
    stInitial.Deletions = 0 ∧ stInitial.HEAD = [] ∧ stInitial.State = TreeState.Default :=
  initial_snapshot_defaults envInitial stInitial (by decide) (by decide)

/-! Claim C9: the short-circuit happens only after the diff-statistics query;
the source runs `git diff --shortstat` before testing the initial flag. -/

/-- Counterexample to C9 as stated: in an initial-commit run the orchestrator
still issues the diff-statistics query after the status query. -/
theorem initial_queries_counterexample :
    Porcelain.parseFrom envInitial.statusOut = .ok porInitial ∧
    porInitial.IsInitial = true ∧
    Query.diffStat ∈ (newStatus envInitial).2 := by
  refine ⟨by decide, by decide, by decide⟩

/-- Claim C9 (amended): when the status query reports the initial-commit
state, the orchestrator issues exactly the status query and the
diff-statistics query; the stash-count and rev-parse queries are never run. -/
theorem initial_shortCircuit (env : Env) (por : Porcelain)
    (hp : Porcelain.parseFrom env.statusOut = .ok por) (hi : por.IsInitial = true) :
    (newStatus env).2 = [Query.status, Query.diffStat] := by
  unfold newStatus
  rw [hp]
  dsimp only
  cases hd : extractShortStat env.diffOut with
  | error e => rfl
  | ok stats =>
    dsimp only
    rw [if_pos hi]

/-- Witness for C9 (amended) at `envInitial`. -/
theorem initial_shortCircuit_witness :
    (newStatus envInitial).2 = [Query.status, Query.diffStat] :=
  initial_shortCircuit envInitial porInitial (by decide) (by decide)

/-! Claim C7: the diff-statistics extractor. -/

theorem insSeg_of_find (seg : List Char) (pos : Nat)
    (hfi : findSubstrIdx (trimSpace seg) insertionLit = some pos) : insSeg seg = true := by
  simp [insSeg, hfi]

theorem extractLoop_spec (segs : List (List Char)) : ∀ ins del : Int,
    (∀ seg ∈ segs,
      (insSeg seg = true → (segNum insertionLit seg).isSome = true) ∧
      (delSeg seg = true → (segNum deletionLit seg).isSome = true)) →
    segs.countP insSeg ≤ 1 →
    segs.countP delSeg ≤ 1 →
    extractLoop ins del segs = .ok (specInsCount ins segs, specDelCount del segs) := by
  induction segs with
  | nil => intro ins del _ _ _; rfl
  | cons seg rest ih =>
    intro ins del hok hu1 hu2
    cases hfi : findSubstrIdx (trimSpace seg) insertionLit with
    | some pos =>
      have hseg : insSeg seg = true := insSeg_of_find seg pos hfi
      have hdseg : delSeg seg = false := by simp [delSeg, hseg]
      have hnum : (segNum insertionLit seg).isSome = true :=
        (hok seg (by simp)).1 hseg
      have hnum2 : segNum insertionLit seg = goAtoi (trimSpace ((trimSpace seg).take pos)) := by
        simp [segNum, hfi]
      rw [hnum2] at hnum
      obtain ⟨v, hv⟩ := Option.isSome_iff_exists.mp hnum
      have hr1 : rest.countP insSeg = 0 := by
        rw [List.countP_cons_of_pos insSeg rest hseg] at hu1
        omega
      have hr2 : rest.countP delSeg ≤ 1 := by
        rw [List.countP_cons_of_neg delSeg rest (by simp [hdseg])] at hu2
        exact hu2
      have hfind : rest.find? insSeg = none :=
        List.find?_eq_none.mpr fun x hx => by
          have := List.countP_eq_zero.mp hr1 x hx
          simpa using this
      have step : extractLoop ins del (seg :: rest) = extractLoop v del rest := by
        simp only [extractLoop, hfi, hv]
      rw [step, ih v del (fun x hx => hok x (by simp [hx])) (by omega) hr2]
      have e1 : specInsCount v rest = v := by
        simp [specInsCount, hfind]
      have e2 : specInsCount ins (seg :: rest) = v := by
        simp [specInsCount, List.find?_cons_of_pos rest hseg, hnum2, hv]
      have e3 : specDelCount del (seg :: rest) = specDelCount del rest := by
        simp [specDelCount, List.find?_cons_of_neg rest (show ¬ delSeg seg = true by simp [hdseg])]
      rw [e1, e2, e3]
    | none =>
      have hseg : insSeg seg = false := by simp [insSeg, hfi]
      cases hfd : findSubstrIdx (trimSpace seg) deletionLit with
      | some pos =>
        have hdseg : delSeg seg = true := by simp [delSeg, hseg, hfd]
        have hnum : (segNum deletionLit seg).isSome = true :=
          (hok seg (by simp)).2 hdseg
        have hnum2 : segNum deletionLit seg = goAtoi (trimSpace ((trimSpace seg).take pos)) := by
          simp [segNum, hfd]
        rw [hnum2] at hnum
        obtain ⟨v, hv⟩ := Option.isSome_iff_exists.mp hnum
        have hr1 : rest.countP insSeg ≤ 1 := by
          rw [List.countP_cons_of_neg insSeg rest (by simp [hseg])] at hu1
          exact hu1
        have hr2 : rest.countP delSeg = 0 := by
          rw [List.countP_cons_of_pos delSeg rest hdseg] at hu2
          omega
        have hfind : rest.find? delSeg = none :=
          List.find?_eq_none.mpr fun x hx => by
            have := List.countP_eq_zero.mp hr2 x hx
            simpa using this
        have step : extractLoop ins del (seg :: rest) = extractLoop ins v rest := by
          simp only [extractLoop, hfi, hfd, hv]
        rw [step, ih ins v (fun x hx => hok x (by simp [hx])) hr1 (by omega)]
        have e1 : specDelCount v rest = v := by
          simp [specDelCount, hfind]
        have e2 : specDelCount del (seg :: rest) = v := by
          simp [specDelCount, List.find?_cons_of_pos rest hdseg, hnum2, hv]
        have e3 : specInsCount ins (seg :: rest) = specInsCount ins rest := by
          simp [specInsCount, List.find?_cons_of_neg rest (show ¬ insSeg seg = true by simp [hseg])]
        rw [e1, e2, e3]
      | none =>
        have hdseg : delSeg seg = false := by simp [delSeg, hseg, hfd]
        have step : extractLoop ins del (seg :: rest) = extractLoop ins del rest := by
          simp only [extractLoop, hfi, hfd]
        have hr1 : rest.countP insSeg ≤ 1 := by
          rw [List.countP_cons_of_neg insSeg rest (by simp [hseg])] at hu1
          exact hu1
        have hr2 : rest.countP delSeg ≤ 1 := by
          rw [List.countP_cons_of_neg delSeg rest (by simp [hdseg])] at hu2
          exact hu2
        rw [step, ih ins del (fun x hx => hok x (by simp [hx])) hr1 hr2]
        have e2 : specInsCount ins (seg :: rest) = specInsCount ins rest := by
          simp [specInsCount, List.find?_cons_of_neg rest (show ¬ insSeg seg = true by simp [hseg])]
        have e3 : specDelCount del (seg :: rest) = specDelCount del rest := by
          simp [specDelCount, List.find?_cons_of_neg rest (show ¬ delSeg seg = true by simp [hdseg])]
        rw [e2, e3]

/-- Claim C7: splitting the diff summary on commas and trimming each segment,
the segment containing "insertion" yields the insertion count from its
leading numeric portion and likewise "deletion" for the deletion count,
segments containing neither are ignored, a missing substring leaves the
count at zero; and the three reference inputs evaluate as the claim states. -/
theorem shortStat_extraction :
    (∀ s : List Char,
      (∀ seg ∈ splitOnChar ',' s,
        (insSeg seg = true → (segNum insertionLit seg).isSome = true) ∧
        (delSeg seg = true → (segNum deletionLit seg).isSome = true)) →
      (splitOnChar ',' s).countP insSeg ≤ 1 →
      (splitOnChar ',' s).countP delSeg ≤ 1 →
      extractShortStat s =
        .ok (specInsCount 0 (splitOnChar ',' s), specDelCount 0 (splitOnChar ',' s))) ∧
    extractShortStat ("2 files changed, 55 insertions(+), 1 deletion(-)".toList) = .ok (55, 1) ∧
    extractShortStat ("1 file changed, 14 insertions(+)".toList) = .ok (14, 0) ∧
    extractShortStat [] = .ok (0, 0) := by
  refine ⟨fun s hok hu1 hu2 => extractLoop_spec (splitOnChar ',' s) 0 0 hok hu1 hu2,
    by decide, by decide, by decide⟩

/-- Witness for C7 at `3 insertions(+), 1 deletion(-)`. -/
theorem shortStat_extraction_witness :
    extractShortStat ("3 insertions(+), 1 deletion(-)".toList) =
      .ok (specInsCount 0 (splitOnChar ',' ("3 insertions(+), 1 deletion(-)".toList)),
           specDelCount 0 (splitOnChar ',' ("3 insertions(+), 1 deletion(-)".toList))) :=
  shortStat_extraction.1 ("3 insertions(+), 1 deletion(-)".toList) (by decide) (by decide)
    (by decide)

/-! Claim C5: divergence counts from well-formed headers.  Helper lemmas about
the scan primitives first. -/

theorem digit_not_ws (c : Char) (h : c.isDigit = true) : c.isWhitespace = false := by
  have h1 : c ≠ ' ' := digit_ne_of_not_digit c ' ' h (by decide)
  have h2 : c ≠ '\t' := digit_ne_of_not_digit c '\t' h (by decide)
  have h3 : c ≠ '\r' := digit_ne_of_not_digit c '\r' h (by decide)
  have h4 : c ≠ '\n' := digit_ne_of_not_digit c '\n' h (by decide)
  simp [Char.isWhitespace, h1, h2, h3, h4]

theorem not_contains_of_not_mem (l : List Char) (c : Char) (h : c ∉ l) :
    l.contains c = false := by
  cases hc : l.contains c with
  | false => rfl
  | true => exact absurd (List.elem_iff.mp hc) h

theorem digit_not_bracket (c : Char) (h : c.isDigit = true) : brackets.contains c = false := by
  refine not_contains_of_not_mem brackets c fun hc => ?_
  have : c = '[' ∨ c = ']' := by simpa [brackets] using hc
  rcases this with rfl | rfl
  · exact absurd h (by decide)
  · exact absurd h (by decide)

theorem matchLit_append (lit x : List Char) : matchLit lit (lit ++ x) = some x := by
  simp [matchLit, isPrefixOf_append_self, List.drop_left]

theorem scanInt_spec (ds rest : List Char) (hds : ∀ c ∈ ds, c.isDigit = true) (hne : ds ≠ [])
    (hrest : ∀ x ∈ rest.take 1, x.isDigit = false) :
    scanInt (' ' :: (ds ++ rest)) = some ((digitsVal ds : Int), rest) := by
  obtain ⟨d0, ds1, rfl⟩ : ∃ d0 ds1, ds = d0 :: ds1 := by
    cases ds with
    | nil => exact absurd rfl hne
    | cons d0 ds1 => exact ⟨d0, ds1, rfl⟩
  have hd0 : d0.isDigit = true := hds d0 (by simp)
  have hdw : (' ' :: ((d0 :: ds1) ++ rest)).dropWhile Char.isWhitespace =
      (d0 :: ds1) ++ rest := by
    rw [List.dropWhile_cons, if_pos (by decide), List.cons_append, List.dropWhile_cons,
      if_neg (by simp [digit_not_ws d0 hd0])]
  have htk : ((d0 :: ds1) ++ rest).takeWhile Char.isDigit = d0 :: ds1 ∧
      ((d0 :: ds1) ++ rest).dropWhile Char.isDigit = rest := by
    cases rest with
    | nil =>
      constructor
      · simpa using takeWhile_all_eq Char.isDigit (d0 :: ds1) hds
      · simpa using dropWhile_all_eq Char.isDigit (d0 :: ds1) hds
    | cons x t =>
      exact takeWhile_append_stop Char.isDigit (d0 :: ds1) t x hds (hrest x (by simp))
  have hd0m : d0 ≠ '-' := digit_ne_of_not_digit d0 '-' hd0 (by decide)
  have hd0p : d0 ≠ '+' := digit_ne_of_not_digit d0 '+' hd0 (by decide)
  unfold scanInt
  rw [hdw]
  split
  · rename_i rest2 heq
    rw [List.cons_append] at heq
    injection heq with h1 _
    exact absurd h1 hd0m
  · rename_i rest2 heq
    rw [List.cons_append] at heq
    injection heq with h1 _
    exact absurd h1 hd0p
  · rw [htk.1, htk.2, if_neg (by simp)]

theorem scanAhead_spec (ds : List Char) (hds : ∀ c ∈ ds, c.isDigit = true) (hne : ds ≠ []) :
    scanAhead (aheadLit ++ (' ' :: ds)) = some ((digitsVal ds : Int)) := by
  unfold scanAhead
  rw [matchLit_append]
  dsimp only
  have e : (' ' :: ds) = ' ' :: (ds ++ []) := by simp
  rw [e, scanInt_spec ds [] hds hne (by simp)]
  rfl

theorem scanBehind_spec (ds : List Char) (hds : ∀ c ∈ ds, c.isDigit = true) (hne : ds ≠ []) :
    scanBehind (behindLit ++ (' ' :: ds)) = some ((digitsVal ds : Int)) := by
  unfold scanBehind
  rw [matchLit_append]
  dsimp only
  have e : (' ' :: ds) = ' ' :: (ds ++ []) := by simp
  rw [e, scanInt_spec ds [] hds hne (by simp)]
  rfl

theorem scanAheadBehind_spec (ds ds2 : List Char)
    (hds : ∀ c ∈ ds, c.isDigit = true) (hne : ds ≠ [])
    (hds2 : ∀ c ∈ ds2, c.isDigit = true) (hne2 : ds2 ≠ []) :
    scanAheadBehind (aheadLit ++ (' ' :: (ds ++ (',' :: ' ' :: (behindLit ++ (' ' :: ds2)))))) =
      (some ((digitsVal ds : Int)), some ((digitsVal ds2 : Int)), true) := by
  unfold scanAheadBehind
  rw [matchLit_append]
  dsimp only
  rw [scanInt_spec ds (',' :: ' ' :: (behindLit ++ (' ' :: ds2))) hds hne (by simp)]
  dsimp only
  have hcomma : (',' :: ' ' :: (behindLit ++ (' ' :: ds2))) =
      [','] ++ (' ' :: (behindLit ++ (' ' :: ds2))) := by simp
  rw [hcomma, matchLit_append]
  dsimp only
  have hws : (' ' :: (behindLit ++ (' ' :: ds2))).dropWhile Char.isWhitespace =
      behindLit ++ (' ' :: ds2) := by
    rw [List.dropWhile_cons, if_pos (by decide)]
    rw [show (behindLit ++ (' ' :: ds2) : List Char) =
      'b' :: (['e', 'h', 'i', 'n', 'd'] ++ (' ' :: ds2)) by simp [behindLit]]
    rw [List.dropWhile_cons, if_neg (by decide)]
  rw [hws, matchLit_append]
  dsimp only
  have e : (' ' :: ds2) = ' ' :: (ds2 ++ []) := by simp
  rw [e, scanInt_spec ds2 [] hds2 hne2 (by simp)]

theorem trimCutset_bracket_wrap (c0 cl : Char) (mid : List Char)
    (h0 : brackets.contains c0 = false) (h1 : brackets.contains cl = false) :
    trimCutset brackets ('[' :: ((c0 :: mid ++ [cl]) ++ [']'])) = c0 :: mid ++ [cl] := by
  have h0m : c0 ∉ brackets := fun hm => by
    have he := List.elem_eq_true_of_mem hm
    rw [show brackets.elem c0 = brackets.contains c0 from rfl, h0] at he
    cases he
  have h1m : cl ∉ brackets := fun hm => by
    have he := List.elem_eq_true_of_mem hm
    rw [show brackets.elem cl = brackets.contains cl from rfl, h1] at he
    cases he
  have e1 : List.dropWhile (fun c => brackets.contains c)
      ('[' :: ((c0 :: mid ++ [cl]) ++ [']'])) = c0 :: (mid ++ [cl] ++ [']']) := by
    rw [List.dropWhile_cons, if_pos (by decide)]
    rw [show ((c0 :: mid ++ [cl]) ++ [']'] : List Char) = c0 :: (mid ++ [cl] ++ [']']) by simp]
    rw [List.dropWhile_cons, if_neg (by simp [h0m])]
  have e2 : (c0 :: (mid ++ [cl] ++ [']'])).reverse = ']' :: cl :: (mid.reverse ++ [c0]) := by
    simp
  have e3 : List.dropWhile (fun c => brackets.contains c)
      (']' :: cl :: (mid.reverse ++ [c0])) = cl :: (mid.reverse ++ [c0]) := by
    rw [List.dropWhile_cons, if_pos (by decide), List.dropWhile_cons, if_neg (by simp [h1m])]
  show ((List.dropWhile _ _).reverse.dropWhile _).reverse = _
  rw [e1, e2, e3]
  simp

theorem parseHeader_upstream (b u : List Char)
    (hidx : findSubstrIdx (hdrMark ++ b ++ dots3 ++ u) dots3 = some (b.length + 3))
    (hinit : initialMark.isPrefixOf (hdrMark ++ b ++ dots3 ++ u) = false) :
    Porcelain.parseHeader initPorcelain (hdrMark ++ b ++ dots3 ++ u) =
      ((({ initPorcelain with LocalBranch := b }).parseUpstream u).1, none) := by
  have hdet : hdrMark ++ b ++ dots3 ++ u ≠ detachedLine := by
    intro e
    rw [e, show findSubstrIdx detachedLine dots3 = none from by decide] at hidx
    cases hidx
  have hlen : ¬ (hdrMark ++ b ++ dots3 ++ u).length < 4 := by
    simp only [List.length_append, hdrMark, dots3, List.length_cons, List.length_nil]
    omega
  have e1 : ((hdrMark ++ b ++ dots3 ++ u).drop 3).take (b.length + 3 - 3) = b := by
    rw [show (hdrMark ++ b ++ dots3 ++ u : List Char) =
        hdrMark ++ (b ++ (dots3 ++ u)) by simp]
    rw [List.drop_left' (show (hdrMark : List Char).length = 3 from rfl)]
    rw [show b.length + 3 - 3 = b.length by omega]
    exact List.take_left' rfl
  have e2 : (hdrMark ++ b ++ dots3 ++ u).drop (b.length + 3 + 3) = u := by
    refine List.drop_left' ?_
    simp only [List.length_append, hdrMark, dots3, List.length_cons, List.length_nil]
    omega
  unfold Porcelain.parseHeader
  rw [if_neg hdet, if_neg (by rw [hinit]; simp), if_neg hlen, hidx]
  dsimp only
  rw [e1, e2]

theorem parseUpstream_ahead (p : Porcelain) (r ds : List Char)
    (hr : ∀ c ∈ r, c ≠ ' ') (hds : ∀ c ∈ ds, c.isDigit = true) (hne : ds ≠ []) :
    p.parseUpstream (r ++ ' ' :: ('[' :: ((aheadLit ++ (' ' :: ds)) ++ [']']))) =
      ({ p with RemoteBranch := r, AheadCount := (digitsVal ds : Int) }, none) := by
  obtain ⟨ds1, dl, rfl⟩ : ∃ ds1 dl, ds = ds1 ++ [dl] := by
    rcases List.eq_nil_or_concat ds with h | ⟨L, x, h⟩
    · exact absurd h hne
    · exact ⟨L, x, by simpa [List.concat_eq_append] using h⟩
  have hdl : dl.isDigit = true := hds dl (by simp)
  have hci : charIdx (r ++ ' ' :: ('[' :: ((aheadLit ++ (' ' :: (ds1 ++ [dl]))) ++ [']']))) ' ' =
      some r.length := charIdx_append_notmem r _ ' ' hr
  unfold Porcelain.parseUpstream
  rw [hci]
  dsimp only
  have htake : (r ++ ' ' :: ('[' :: ((aheadLit ++ (' ' :: (ds1 ++ [dl]))) ++ [']']))).take
      r.length = r := List.take_left r _
  have hdrop : (r ++ ' ' :: ('[' :: ((aheadLit ++ (' ' :: (ds1 ++ [dl]))) ++ [']']))).drop
      (r.length + 1) = '[' :: ((aheadLit ++ (' ' :: (ds1 ++ [dl]))) ++ [']']) := by
    rw [show (r ++ ' ' :: ('[' :: ((aheadLit ++ (' ' :: (ds1 ++ [dl]))) ++ [']'])) : List Char) =
      (r ++ [' ']) ++ ('[' :: ((aheadLit ++ (' ' :: (ds1 ++ [dl]))) ++ [']'])) by simp]
    exact List.drop_left' (by simp)
  rw [htake, hdrop]
  have hshape : ('[' :: ((aheadLit ++ (' ' :: (ds1 ++ [dl]))) ++ [']']) : List Char) =
      '[' :: ((('a' :: (['h', 'e', 'a', 'd', ' '] ++ ds1)) ++ [dl]) ++ [']']) := by
    simp [aheadLit]
  rw [hshape, trimCutset_bracket_wrap 'a' dl (['h', 'e', 'a', 'd', ' '] ++ ds1) (by decide)
    (digit_not_bracket dl hdl)]
  have hback : (('a' :: (['h', 'e', 'a', 'd', ' '] ++ ds1)) ++ [dl] : List Char) =
      aheadLit ++ (' ' :: (ds1 ++ [dl])) := by
    simp [aheadLit]
  rw [hback]
  have hmemb : ∀ x ∈ aheadLit ++ (' ' :: (ds1 ++ [dl])), x ≠ 'b' := by
    intro x hx
    rcases List.mem_append.mp hx with h1 | h2
    · have : ∀ x ∈ aheadLit, x ≠ 'b' := by decide
      exact this x h1
    · rcases List.mem_cons.mp h2 with rfl | h3
      · decide
      · exact digit_ne_of_not_digit x 'b' (hds x h3) (by decide)
  have hB : containsSubstr (aheadLit ++ (' ' :: (ds1 ++ [dl]))) behindLit = false := by
    simp [containsSubstr,
      findSubstrIdx_none_of_head_notmem _ behindLit 'b' ['e', 'h', 'i', 'n', 'd'] rfl hmemb]
  have hA : containsSubstr (aheadLit ++ (' ' :: (ds1 ++ [dl]))) aheadLit = true :=
    containsSubstr_of_isPrefixOf _ _ (isPrefixOf_append_self ..)
  rw [hA, hB, if_neg (by decide), if_pos (by decide), scanAhead_spec (ds1 ++ [dl]) hds hne]

theorem parseUpstream_behind (p : Porcelain) (r ds : List Char)
    (hr : ∀ c ∈ r, c ≠ ' ') (hds : ∀ c ∈ ds, c.isDigit = true) (hne : ds ≠ []) :
    p.parseUpstream (r ++ ' ' :: ('[' :: ((behindLit ++ (' ' :: ds)) ++ [']']))) =
      ({ p with RemoteBranch := r, BehindCount := (digitsVal ds : Int) }, none) := by
  obtain ⟨ds1, dl, rfl⟩ : ∃ ds1 dl, ds = ds1 ++ [dl] := by
    rcases List.eq_nil_or_concat ds with h | ⟨L, x, h⟩
    · exact absurd h hne
    · exact ⟨L, x, by simpa [List.concat_eq_append] using h⟩
  have hdl : dl.isDigit = true := hds dl (by simp)
  have hci : charIdx (r ++ ' ' :: ('[' :: ((behindLit ++ (' ' :: (ds1 ++ [dl]))) ++ [']']))) ' ' =
      some r.length := charIdx_append_notmem r _ ' ' hr
  unfold Porcelain.parseUpstream
  rw [hci]
  dsimp only
  have htake : (r ++ ' ' :: ('[' :: ((behindLit ++ (' ' :: (ds1 ++ [dl]))) ++ [']']))).take
      r.length = r := List.take_left r _
  have hdrop : (r ++ ' ' :: ('[' :: ((behindLit ++ (' ' :: (ds1 ++ [dl]))) ++ [']']))).drop
      (r.length + 1) = '[' :: ((behindLit ++ (' ' :: (ds1 ++ [dl]))) ++ [']']) := by
    rw [show (r ++ ' ' :: ('[' :: ((behindLit ++ (' ' :: (ds1 ++ [dl]))) ++ [']'])) : List Char) =
      (r ++ [' ']) ++ ('[' :: ((behindLit ++ (' ' :: (ds1 ++ [dl]))) ++ [']'])) by simp]
    exact List.drop_left' (by simp)
  rw [htake, hdrop]
  have hshape : ('[' :: ((behindLit ++ (' ' :: (ds1 ++ [dl]))) ++ [']']) : List Char) =
      '[' :: ((('b' :: (['e', 'h', 'i', 'n', 'd', ' '] ++ ds1)) ++ [dl]) ++ [']']) := by
    simp [behindLit]
  rw [hshape, trimCutset_bracket_wrap 'b' dl (['e', 'h', 'i', 'n', 'd', ' '] ++ ds1) (by decide)
    (digit_not_bracket dl hdl)]
  have hback : (('b' :: (['e', 'h', 'i', 'n', 'd', ' '] ++ ds1)) ++ [dl] : List Char) =
      behindLit ++ (' ' :: (ds1 ++ [dl])) := by
    simp [behindLit]
  rw [hback]
  have hmema : ∀ x ∈ behindLit ++ (' ' :: (ds1 ++ [dl])), x ≠ 'a' := by
    intro x hx
    rcases List.mem_append.mp hx with h1 | h2
    · have : ∀ x ∈ behindLit, x ≠ 'a' := by decide
      exact this x h1
    · rcases List.mem_cons.mp h2 with rfl | h3
      · decide
      · exact digit_ne_of_not_digit x 'a' (hds x h3) (by decide)
  have hA : containsSubstr (behindLit ++ (' ' :: (ds1 ++ [dl]))) aheadLit = false := by
    simp [containsSubstr,
      findSubstrIdx_none_of_head_notmem _ aheadLit 'a' ['h', 'e', 'a', 'd'] rfl hmema]
  have hB : containsSubstr (behindLit ++ (' ' :: (ds1 ++ [dl]))) behindLit = true :=
    containsSubstr_of_isPrefixOf _ _ (isPrefixOf_append_self ..)
  rw [hA, hB, if_neg (by decide), if_neg (by decide), if_pos (by decide), scanBehind_spec (ds1 ++ [dl]) hds hne]

theorem parseUpstream_aheadBehind (p : Porcelain) (r ds ds2 : List Char)
    (hr : ∀ c ∈ r, c ≠ ' ') (hds : ∀ c ∈ ds, c.isDigit = true) (hne : ds ≠ [])
    (hds2 : ∀ c ∈ ds2, c.isDigit = true) (hne2 : ds2 ≠ []) :
    p.parseUpstream (r ++ ' ' ::
        ('[' :: ((aheadLit ++ (' ' :: (ds ++ (',' :: ' ' :: (behindLit ++ (' ' :: ds2))))))
          ++ [']']))) =
      ({ p with
          RemoteBranch := r
          AheadCount := (digitsVal ds : Int)
          BehindCount := (digitsVal ds2 : Int) }, none) := by
  obtain ⟨e1, el, rfl⟩ : ∃ e1 el, ds2 = e1 ++ [el] := by
    rcases List.eq_nil_or_concat ds2 with h | ⟨L, x, h⟩
    · exact absurd h hne2
    · exact ⟨L, x, by simpa [List.concat_eq_append] using h⟩
  have hel : el.isDigit = true := hds2 el (by simp)
  set inner := aheadLit ++ (' ' :: (ds ++ (',' :: ' ' :: (behindLit ++ (' ' :: (e1 ++ [el]))))))
    with hinner
  have hci : charIdx (r ++ ' ' :: ('[' :: (inner ++ [']']))) ' ' = some r.length :=
    charIdx_append_notmem r _ ' ' hr
  unfold Porcelain.parseUpstream
  rw [hci]
  dsimp only
  have htake : (r ++ ' ' :: ('[' :: (inner ++ [']']))).take r.length = r := List.take_left r _
  have hdrop : (r ++ ' ' :: ('[' :: (inner ++ [']']))).drop (r.length + 1) =
      '[' :: (inner ++ [']']) := by
    rw [show (r ++ ' ' :: ('[' :: (inner ++ [']'])) : List Char) =
      (r ++ [' ']) ++ ('[' :: (inner ++ [']'])) by simp]
    exact List.drop_left' (by simp)
  rw [htake, hdrop]
  have hshape : ('[' :: (inner ++ [']']) : List Char) =
      '[' :: ((('a' :: (['h', 'e', 'a', 'd', ' '] ++ ds ++
        (',' :: ' ' :: (behindLit ++ (' ' :: e1))))) ++ [el]) ++ [']']) := by
    simp [hinner, aheadLit]
  rw [hshape, trimCutset_bracket_wrap 'a' el
    (['h', 'e', 'a', 'd', ' '] ++ ds ++ (',' :: ' ' :: (behindLit ++ (' ' :: e1))))
    (by decide) (digit_not_bracket el hel)]
  have hback : (('a' :: (['h', 'e', 'a', 'd', ' '] ++ ds ++
      (',' :: ' ' :: (behindLit ++ (' ' :: e1))))) ++ [el] : List Char) = inner := by
    simp [hinner, aheadLit]
  rw [hback]
  have hA : containsSubstr inner aheadLit = true := by
    rw [hinner]
    exact containsSubstr_of_isPrefixOf _ _ (isPrefixOf_append_self ..)
  have hB : containsSubstr inner behindLit = true := by
    have hsplit : inner = (aheadLit ++ (' ' :: ds) ++ [',', ' ']) ++
        (behindLit ++ (' ' :: (e1 ++ [el]))) := by
      simp [hinner]
    rw [hsplit]
    exact containsSubstr_append_right _ _ _
      (containsSubstr_of_isPrefixOf _ _ (isPrefixOf_append_self ..))
  rw [hA, hB, if_pos (by decide)]
  have hscan : scanAheadBehind inner =
      (some ((digitsVal ds : Int)), some ((digitsVal (e1 ++ [el]) : Int)), true) := by
    rw [hinner]
    exact scanAheadBehind_spec ds (e1 ++ [el]) hds hne hds2 hne2
  rw [hscan]
  dsimp only
  rw [if_pos rfl]

/-- Claim C5: for every valid header `## <b>...<r> [ahead A]` (the first `...`
of the line sitting right after the branch name, a space-free remote, and a
non-empty digit run A), parsing yields AheadCount = A and BehindCount = 0;
for `## <b>...<r> [behind B]` it yields BehindCount = B and AheadCount = 0;
and for `## <b>...<r> [ahead A, behind B]` it yields exactly A and B. -/
theorem upstream_divergence_counts :
    (∀ b r ds : List Char,
      findSubstrIdx (hdrAhead b r ds) dots3 = some (b.length + 3) →
      initialMark.isPrefixOf (hdrAhead b r ds) = false →
      (∀ c ∈ r, c ≠ ' ') → (∀ c ∈ ds, c.isDigit = true) → ds ≠ [] →
      Porcelain.parseHeader initPorcelain (hdrAhead b r ds) =
        ({ initPorcelain with
            LocalBranch := b
            RemoteBranch := r
            AheadCount := (digitsVal ds : Int) }, none)) ∧
    (∀ b r ds : List Char,
      findSubstrIdx (hdrBehind b r ds) dots3 = some (b.length + 3) →
      initialMark.isPrefixOf (hdrBehind b r ds) = false →
      (∀ c ∈ r, c ≠ ' ') → (∀ c ∈ ds, c.isDigit = true) → ds ≠ [] →
      Porcelain.parseHeader initPorcelain (hdrBehind b r ds) =
        ({ initPorcelain with
            LocalBranch := b
            RemoteBranch := r
            BehindCount := (digitsVal ds : Int) }, none)) ∧
    (∀ b r ds ds2 : List Char,
      findSubstrIdx (hdrAheadBehind b r ds ds2) dots3 = some (b.length + 3) →
      initialMark.isPrefixOf (hdrAheadBehind b r ds ds2) = false →
      (∀ c ∈ r, c ≠ ' ') → (∀ c ∈ ds, c.isDigit = true) → ds ≠ [] →
      (∀ c ∈ ds2, c.isDigit = true) → ds2 ≠ [] →
      Porcelain.parseHeader initPorcelain (hdrAheadBehind b r ds ds2) =
        ({ initPorcelain with
            LocalBranch := b
            RemoteBranch := r
            AheadCount := (digitsVal ds : Int)
            BehindCount := (digitsVal ds2 : Int) }, none)) := by
  refine ⟨?_, ?_, ?_⟩
  · intro b r ds hidx hinit hr hds hne
    have hsh : hdrAhead b r ds =
        hdrMark ++ b ++ dots3 ++ (r ++ ' ' :: ('[' :: ((aheadLit ++ (' ' :: ds)) ++ [']']))) := by
      simp [hdrAhead, List.append_assoc]
    rw [hsh] at hidx hinit ⊢
    rw [parseHeader_upstream b _ hidx hinit, parseUpstream_ahead _ r ds hr hds hne]
  · intro b r ds hidx hinit hr hds hne
    have hsh : hdrBehind b r ds =
        hdrMark ++ b ++ dots3 ++
          (r ++ ' ' :: ('[' :: ((behindLit ++ (' ' :: ds)) ++ [']']))) := by
      simp [hdrBehind, List.append_assoc]
    rw [hsh] at hidx hinit ⊢
    rw [parseHeader_upstream b _ hidx hinit, parseUpstream_behind _ r ds hr hds hne]
  · intro b r ds ds2 hidx hinit hr hds hne hds2 hne2
    have hsh : hdrAheadBehind b r ds ds2 =
        hdrMark ++ b ++ dots3 ++
          (r ++ ' ' :: ('[' ::
            ((aheadLit ++ (' ' :: (ds ++ (',' :: ' ' :: (behindLit ++ (' ' :: ds2))))))
              ++ [']']))) := by
      simp [hdrAheadBehind, List.append_assoc]
    rw [hsh] at hidx hinit ⊢
    rw [parseHeader_upstream b _ hidx hinit,
      parseUpstream_aheadBehind _ r ds ds2 hr hds hne hds2 hne2]

/-- Witness for C5 at `## main...origin/main` with `[ahead 3]`, `[behind 2]`
and `[ahead 26, behind 2]`. -/
theorem upstream_divergence_counts_witness :
    Porcelain.parseHeader initPorcelain (hdrAhead ("main".toList) ("origin/main".toList)
        ("3".toList)) =
      ({ initPorcelain with
          LocalBranch := "main".toList
          RemoteBranch := "origin/main".toList
          AheadCount := (digitsVal ("3".toList) : Int) }, none) ∧
    Porcelain.parseHeader initPorcelain (hdrBehind ("main".toList) ("origin/main".toList)
        ("2".toList)) =
      ({ initPorcelain with
          LocalBranch := "main".toList
          RemoteBranch := "origin/main".toList
          BehindCount := (digitsVal ("2".toList) : Int) }, none) ∧
    Porcelain.parseHeader initPorcelain (hdrAheadBehind ("main".toList) ("origin/main".toList)
        ("26".toList) ("2".toList)) =
      ({ initPorcelain with
          LocalBranch := "main".toList
          RemoteBranch := "origin/main".toList
          AheadCount := (digitsVal ("26".toList) : Int)
          BehindCount := (digitsVal ("2".toList) : Int) }, none) :=
  ⟨upstream_divergence_counts.1 ("main".toList) ("origin/main".toList) ("3".toList)
      (by decide) (by decide) (by decide) (by decide) (by decide),
   upstream_divergence_counts.2.1 ("main".toList) ("origin/main".toList) ("2".toList)
      (by decide) (by decide) (by decide) (by decide) (by decide),
   upstream_divergence_counts.2.2 ("main".toList) ("origin/main".toList) ("26".toList)
      ("2".toList) (by decide) (by decide) (by decide) (by decide) (by decide) (by decide)
      (by decide)⟩

end Gitstatus
